import Mathlib

/-!
Verification of the connection-multiplexing core of the Pumpkin game server
(`src/pumpkin/src/main.rs`): the reactor loop, the token-keyed connection
registry, the accept-drain algorithm and the Client-to-Player promotion state
machine.

The embedding mirrors `main.rs`.  Tokens are `Nat` (mio `Token` wraps a
`usize`).  The two `HashMap`s (`clients`, `players`) are modelled as
`Nat → Option _` maps, which captures exactly the HashMap guarantee of at most
one value per key.  The mio `Poll` registry is modelled as a map from Token to
the registered `Interest` (`none` = not registered).  Each dispatch step also
emits a trace of `Op`s, in the order main.rs performs its registry / map /
server operations, so that ordering properties can be stated.

The packet-processing collaborators (`Client::poll`/`process_packets`,
`Player::process_packets`) live in other modules; per the collaborator
contract their observable effect on the dispatch loop is confined to the
`closed` and `make_player` flags, so each dispatch is parametrised by an
arbitrary function giving the flags they leave behind.
-/

namespace Pumpkin

/-- The reserved listener token: `const SERVER: Token = Token(0)`. -/
def SERVER : Nat := 0

/-- mio `Interest`: which readiness kinds a registration asks for. -/
structure Interest where
  readable : Bool
  writable : Bool
deriving DecidableEq, Repr

/-- `Interest::READABLE` (the listener's registration interest). -/
def readOnlyInterest : Interest := ⟨true, false⟩

/-- `Interest::READABLE.add(Interest::WRITABLE)` (connection registration). -/
def readWrite : Interest := ⟨true, true⟩

/-- The observable part of a `Client` for the dispatch loop: its token and the
two flags `closed` and `make_player` read by `main.rs`.  (Buffers and the
connection handle are opaque to the loop.) -/
structure Client where
  token : Nat
  closed : Bool
  make_player : Bool
deriving DecidableEq, Repr

/-- Modelled from the spec: `Client::new` lives in the client module (not under
src/).  A Client is created at accept time, before any packet has been
processed, hence before promotion or closure can have been flagged. -/
def newClient (t : Nat) : Client := ⟨t, false, false⟩

/-- A `Player` wraps the Client it was promoted from; domain entity state is
opaque to the dispatch loop. -/
structure Player where
  client : Client
deriving DecidableEq, Repr

/-- Modelled from the spec: `Server::add_player` (the promotion operation)
lives in the server module (not under src/); per the spec it "constructs a
Player from the Client and returns a handle". -/
def playerOf (c : Client) : Player := ⟨c⟩

/-- The operations main.rs performs on the registry maps, the reactor
registry and the Server, logged in program order. -/
inductive Op where
  | register (t : Nat) (i : Interest)
  | deregister (t : Nat)
  | insertClient (t : Nat)
  | removeClient (t : Nat)
  | insertPlayer (t : Nat)
  | removePlayer (t : Nat)
  | serverAddPlayer (t : Nat)
  | serverRemovePlayer (t : Nat)
  | spawnPlayer (t : Nat)
deriving DecidableEq, Repr

/-- The loop-owned state: the two token-keyed registry maps, the reactor
registrations, the token allocator counter and the Server's player
bookkeeping (the tokens it was told about via add_player / remove_player). -/
structure SysState where
  clients : Nat → Option Client
  players : Nat → Option Player
  registered : Nat → Option Interest
  uniqueToken : Nat
  server : List Nat

/-- Point update of a token-keyed map. -/
def mset {α : Type} (m : Nat → Option α) (t : Nat) (v : Option α) :
    Nat → Option α :=
  fun x => if x = t then v else m x

@[simp]
theorem mset_same {α : Type} (m : Nat → Option α) (t : Nat) (v : Option α) :
    mset m t v t = v := by
  simp [mset]

@[simp]
theorem mset_other {α : Type} (m : Nat → Option α) (t : Nat) (v : Option α)
    (x : Nat) (h : x ≠ t) : mset m t v x = m x := by
  simp [mset, h]

/-- `fn next(current: &mut Token) -> Token`: returns the current counter value
and increments the counter. -/
def next (current : Nat) : Nat × Nat := (current, current + 1)

/-- The state right after setup in `main`: both maps empty, the listener
registered under `SERVER` with readable interest, and
`unique_token = Token(SERVER.0 + 1)`. -/
def initState : SysState where
  clients := fun _ => none
  players := fun _ => none
  registered := fun t => if t = SERVER then some readOnlyInterest else none
  uniqueToken := SERVER + 1
  server := []

/-- The "Poll Players" half of the non-listener dispatch arm: if the token has
a live Player, deliver the event / run its packet processing (mutating it in
place through the `RefCell`), then, if its `closed` flag is set, remove it from
`players`, call `server.remove_player`, and deregister its connection. -/
def playerPhase (pp : Player → Bool) (t : Nat) (s : SysState) :
    SysState × List Op :=
  match s.players t with
  | some p =>
      let p' : Player := { p with client := { p.client with closed := pp p } }
      let s1 : SysState := { s with players := mset s.players t (some p') }
      if p'.client.closed then
        ({ s1 with
            players := mset s1.players t none
            server := s1.server.filter (fun x => x ≠ t)
            registered := mset s1.registered t none },
         [Op.removePlayer t, Op.serverRemovePlayer t, Op.deregister t])
      else (s1, [])
  | none => (s, [])

/-- The "Poll current Clients" half of the non-listener dispatch arm: if the
token has a live Client, deliver the event / run its packet processing, then
read `closed` and `make_player`.  If either is set the Client entry is removed;
`closed` leads to deregistration, otherwise `make_player` leads to
`server.add_player`, insertion into `players` under the Client's token, and
`server.spawn_player`. -/
def clientPhase (pc : Client → Bool × Bool) (t : Nat) (s : SysState) :
    SysState × List Op :=
  match s.clients t with
  | some c =>
      let c' : Client := { c with closed := (pc c).1, make_player := (pc c).2 }
      let s2 : SysState := { s with clients := mset s.clients t (some c') }
      if c'.closed || c'.make_player then
        let s3 : SysState := { s2 with clients := mset s2.clients t none }
        if c'.closed then
          ({ s3 with registered := mset s3.registered t none },
           [Op.removeClient t, Op.deregister t])
        else
          ({ s3 with
              players := mset s3.players c'.token (some (playerOf c'))
              server := c'.token :: s3.server },
           [Op.removeClient t, Op.serverAddPlayer c'.token,
            Op.insertPlayer c'.token, Op.spawnPlayer c'.token])
      else (s2, [])
  | none => (s, [])

/-- One full dispatch iteration for a non-listener token: the Player branch
runs first, then the Client branch, exactly as in `main.rs`. -/
def dispatchConn (pp : Player → Bool) (pc : Client → Bool × Bool) (t : Nat)
    (s : SysState) : SysState × List Op :=
  let a := playerPhase pp t s
  let b := clientPhase pc t a.1
  (b.1, a.2 ++ b.2)

/-- How the accept-drain loop ends: either `accept` reports `WouldBlock`
(no more pending connections) or it fails with some other error. -/
inductive IOKind where
  | interruptedKind
  | wouldBlock
  | other
deriving DecidableEq, Repr

/-- An I/O error, identified (as far as the loop cares) by its kind. -/
structure IOErr where
  kind : IOKind
deriving DecidableEq, Repr

/-- Modelled from the spec: `interrupted` lives in the client module (not
under src/); per the spec it recognises an OS-level interruption of `poll`,
which must be retried transparently. -/
def interrupted (e : IOErr) : Bool := e.kind = IOKind.interruptedKind

/-- What terminates the accept-drain: `WouldBlock` or a fatal accept error. -/
inductive AcceptEnd where
  | wouldBlock
  | fatal (e : IOErr)
deriving DecidableEq, Repr

/-- One successful `listener.accept()`: mint the next token, register the
connection for read+write interest, construct the Client and insert it. -/
def acceptOne (s : SysState) : SysState :=
  { s with
      uniqueToken := (next s.uniqueToken).2
      registered := mset s.registered (next s.uniqueToken).1 (some readWrite)
      clients :=
        mset s.clients (next s.uniqueToken).1
          (some (newClient (next s.uniqueToken).1)) }

/-- The `SERVER` arm of the event match: drain `n` pending connections, then
hit the terminator.  `WouldBlock` breaks back to the outer loop; any other
accept error aborts the loop with that error. -/
def acceptDrain (n : Nat) (endKind : AcceptEnd) (s : SysState) :
    Except IOErr (SysState × List Op) :=
  match n with
  | 0 =>
      match endKind with
      | AcceptEnd.wouldBlock => Except.ok (s, [])
      | AcceptEnd.fatal e => Except.error e
  | Nat.succ k =>
      (acceptDrain k endKind (acceptOne s)).map
        (fun p =>
          (p.1, Op.register (next s.uniqueToken).1 readWrite ::
            Op.insertClient (next s.uniqueToken).1 :: p.2))

/-- A readiness event as the dispatch loop sees it: either the listener token
is ready (with some number of pending connections and a drain terminator), or
a non-listener connection token is ready. -/
inductive Ev where
  | listener (n : Nat) (endKind : AcceptEnd)
  | conn (t : Nat)

/-- Dispatch of one readiness event (one iteration of the `for event in
events.iter()` loop). -/
def dispatchEvent (pp : Player → Bool) (pc : Client → Bool × Bool) (e : Ev)
    (s : SysState) : Except IOErr (SysState × List Op) :=
  match e with
  | Ev.listener n endKind => acceptDrain n endKind s
  | Ev.conn t => Except.ok (dispatchConn pp pc t s)

/-- Dispatch of a whole readiness batch; a fatal error aborts the loop. -/
def dispatchBatch (pp : Player → Bool) (pc : Client → Bool × Bool)
    (es : List Ev) (s : SysState) : Except IOErr SysState :=
  match es with
  | [] => Except.ok s
  | e :: rest =>
      match dispatchEvent pp pc e s with
      | Except.error err => Except.error err
      | Except.ok p => dispatchBatch pp pc rest p.1

/-- The tokens minted by `k` successive calls of `next` starting from counter
value `c`. -/
def mintFrom (c : Nat) : Nat → List Nat
  | 0 => []
  | Nat.succ k => (next c).1 :: mintFrom (next c).2 k

/-- The `poll` retry loop at the head of the main loop: given the successive
results `poll` would return, skip results whose error is an OS interruption
(`continue`), stop at the first other error (`return Err(err)`) or the first
successful batch. -/
def pollRetry : List (Except IOErr (List Ev)) → Option (Except IOErr (List Ev))
  | [] => none
  | Except.error e :: rest =>
      if interrupted e then pollRetry rest else some (Except.error e)
  | Except.ok evs :: _ => some (Except.ok evs)

/-- Sender identity for the command handler. -/
inductive CommandSender where
  | console
deriving DecidableEq, Repr

/-- One iteration of the console thread's loop, as a function from the string
`read_line` produced to the list of `handle_command` invocations it performs:
`if !out.is_empty() { handle_command(&mut CommandSender::Console, &out) }`. -/
def consoleDispatch (out : String) : List (CommandSender × String) :=
  if out.isEmpty then [] else [(CommandSender.console, out)]

/-! ### Evaluation lemmas for the dispatch phases -/

@[simp]
theorem mset_mset {α : Type} (m : Nat → Option α) (t : Nat)
    (v w : Option α) : mset (mset m t v) t w = mset m t w := by
  funext x
  by_cases h : x = t <;> simp [mset, h]

theorem playerPhase_none (pp : Player → Bool) (t : Nat) (s : SysState)
    (hp : s.players t = none) : playerPhase pp t s = (s, []) := by
  simp [playerPhase, hp]

theorem playerPhase_stay (pp : Player → Bool) (t : Nat) (s : SysState)
    (p : Player) (hp : s.players t = some p) (hl : pp p = false) :
    playerPhase pp t s =
      ({ s with
          players :=
            mset s.players t
              (some { p with client := { p.client with closed := false } }) },
       []) := by
  simp [playerPhase, hp, hl]

theorem playerPhase_closed (pp : Player → Bool) (t : Nat) (s : SysState)
    (p : Player) (hp : s.players t = some p) (hl : pp p = true) :
    playerPhase pp t s =
      ({ s with
          players := mset s.players t none
          server := s.server.filter (fun x => x ≠ t)
          registered := mset s.registered t none },
       [Op.removePlayer t, Op.serverRemovePlayer t, Op.deregister t]) := by
  simp [playerPhase, hp, hl]

theorem clientPhase_none (pc : Client → Bool × Bool) (t : Nat) (s : SysState)
    (hc : s.clients t = none) : clientPhase pc t s = (s, []) := by
  simp [clientPhase, hc]

theorem clientPhase_stay (pc : Client → Bool × Bool) (t : Nat) (s : SysState)
    (c : Client) (hc : s.clients t = some c) (h1 : (pc c).1 = false)
    (h2 : (pc c).2 = false) :
    clientPhase pc t s =
      ({ s with
          clients :=
            mset s.clients t
              (some { c with closed := false, make_player := false }) },
       []) := by
  simp [clientPhase, hc, h1, h2]

theorem clientPhase_closed (pc : Client → Bool × Bool) (t : Nat) (s : SysState)
    (c : Client) (hc : s.clients t = some c) (h1 : (pc c).1 = true) :
    clientPhase pc t s =
      ({ s with
          clients := mset s.clients t none
          registered := mset s.registered t none },
       [Op.removeClient t, Op.deregister t]) := by
  simp [clientPhase, hc, h1]

theorem clientPhase_promote (pc : Client → Bool × Bool) (t : Nat)
    (s : SysState) (c : Client) (hc : s.clients t = some c)
    (h1 : (pc c).1 = false) (h2 : (pc c).2 = true) :
    clientPhase pc t s =
      ({ s with
          clients := mset s.clients t none
          players :=
            mset s.players c.token
              (some (playerOf { c with closed := false, make_player := true }))
          server := c.token :: s.server },
       [Op.removeClient t, Op.serverAddPlayer c.token, Op.insertPlayer c.token,
        Op.spawnPlayer c.token]) := by
  simp [clientPhase, hc, h1, h2]

theorem dispatchConn_eq (pp : Player → Bool) (pc : Client → Bool × Bool)
    (t : Nat) (s : SysState) :
    dispatchConn pp pc t s =
      ((clientPhase pc t (playerPhase pp t s).1).1,
       (playerPhase pp t s).2 ++ (clientPhase pc t (playerPhase pp t s).1).2) :=
  rfl

/-- The Player branch never touches the `clients` map. -/
theorem playerPhase_clients (pp : Player → Bool) (t : Nat) (s : SysState) :
    (playerPhase pp t s).1.clients = s.clients := by
  cases hp : s.players t with
  | none => rw [playerPhase_none pp t s hp]
  | some p =>
      cases hl : pp p with
      | false => rw [playerPhase_stay pp t s p hp hl]
      | true => rw [playerPhase_closed pp t s p hp hl]

/-- The Player branch never touches the token allocator. -/
theorem playerPhase_uniqueToken (pp : Player → Bool) (t : Nat) (s : SysState) :
    (playerPhase pp t s).1.uniqueToken = s.uniqueToken := by
  cases hp : s.players t with
  | none => rw [playerPhase_none pp t s hp]
  | some p =>
      cases hl : pp p with
      | false => rw [playerPhase_stay pp t s p hp hl]
      | true => rw [playerPhase_closed pp t s p hp hl]

/-! ### The loop invariant -/

/-- The bookkeeping invariant of the loop-owned state: every non-listener
token is registered with the reactor iff it has a live Client or Player entry;
the listener token has no map entries and keeps its readable registration;
no token is double-staged; every token in use is below the allocator counter;
every Client entry records its own key as its token. -/
structure Inv (s : SysState) : Prop where
  regIff : ∀ t, t ≠ SERVER →
    ((s.registered t).isSome ↔ ((s.clients t).isSome ∨ (s.players t).isSome))
  clientsListener : s.clients SERVER = none
  playersListener : s.players SERVER = none
  singleStage : ∀ t, s.clients t = none ∨ s.players t = none
  tokBound : ∀ t,
    ((s.clients t).isSome ∨ (s.players t).isSome ∨ (s.registered t).isSome) →
    t < s.uniqueToken
  keyTok : ∀ t c, s.clients t = some c → c.token = t
  listenerReg : s.registered SERVER = some readOnlyInterest
  posTok : 0 < s.uniqueToken

theorem Inv_initState : Inv initState := by
  refine ⟨?_, rfl, rfl, ?_, ?_, ?_, ?_, ?_⟩
  · intro t ht
    simp [initState, ht]
  · intro t
    left
    rfl
  · intro t htmem
    rcases eq_or_ne t SERVER with rfl | ht
    · simp [initState, SERVER]
    · simp [initState, ht] at htmem
  · intro t c hc
    exact Option.noConfusion hc
  · simp [initState]
  · simp [initState]

theorem playerPhase_inv {s : SysState} (pp : Player → Bool) (t : Nat)
    (h : Inv s) : Inv (playerPhase pp t s).1 := by
  cases hp : s.players t with
  | none => rw [playerPhase_none pp t s hp]; exact h
  | some p =>
      have ht0 : t ≠ SERVER := by
        intro he
        rw [he, h.playersListener] at hp
        exact Option.noConfusion hp
      have hcn : s.clients t = none := by
        rcases h.singleStage t with hx | hx
        · exact hx
        · rw [hx] at hp; exact Option.noConfusion hp
      have hmem : (s.clients t).isSome ∨ (s.players t).isSome ∨
          (s.registered t).isSome := by
        rw [hp]; exact Or.inr (Or.inl rfl)
      cases hl : pp p with
      | false =>
          rw [playerPhase_stay pp t s p hp hl]
          refine ⟨?_, h.clientsListener, ?_, ?_, ?_, h.keyTok, h.listenerReg,
            h.posTok⟩
          · intro x hx
            dsimp only
            rcases eq_or_ne x t with rfl | hxt
            · have h2 := h.regIff x hx
              rw [hp] at h2
              simpa using h2
            · rw [mset_other _ _ _ _ hxt]
              exact h.regIff x hx
          · dsimp only
            rw [mset_other _ _ _ _ (Ne.symm ht0)]
            exact h.playersListener
          · intro x
            dsimp only
            rcases eq_or_ne x t with rfl | hxt
            · exact Or.inl hcn
            · rw [mset_other _ _ _ _ hxt]
              exact h.singleStage x
          · intro x hx
            dsimp only at hx ⊢
            rcases eq_or_ne x t with rfl | hxt
            · exact h.tokBound x hmem
            · rw [mset_other _ _ _ _ hxt] at hx
              exact h.tokBound x hx
      | true =>
          rw [playerPhase_closed pp t s p hp hl]
          refine ⟨?_, h.clientsListener, ?_, ?_, ?_, h.keyTok, ?_, h.posTok⟩
          · intro x hx
            dsimp only
            rcases eq_or_ne x t with rfl | hxt
            · simp [hcn]
            · rw [mset_other _ _ _ _ hxt, mset_other _ _ _ _ hxt]
              exact h.regIff x hx
          · dsimp only
            rw [mset_other _ _ _ _ (Ne.symm ht0)]
            exact h.playersListener
          · intro x
            dsimp only
            rcases eq_or_ne x t with rfl | hxt
            · exact Or.inr (mset_same _ _ _)
            · rw [mset_other _ _ _ _ hxt]
              exact h.singleStage x
          · intro x hx
            dsimp only at hx ⊢
            rcases eq_or_ne x t with rfl | hxt
            · exact h.tokBound x hmem
            · rw [mset_other _ _ _ _ hxt, mset_other _ _ _ _ hxt] at hx
              exact h.tokBound x hx
          · dsimp only
            rw [mset_other _ _ _ _ (Ne.symm ht0)]
            exact h.listenerReg

theorem clientPhase_inv {s : SysState} (pc : Client → Bool × Bool) (t : Nat)
    (h : Inv s) : Inv (clientPhase pc t s).1 := by
  cases hc : s.clients t with
  | none => rw [clientPhase_none pc t s hc]; exact h
  | some c =>
      have ht0 : t ≠ SERVER := by
        intro he
        rw [he, h.clientsListener] at hc
        exact Option.noConfusion hc
      have hpn : s.players t = none := by
        rcases h.singleStage t with hx | hx
        · rw [hx] at hc; exact Option.noConfusion hc
        · exact hx
      have hmem : (s.clients t).isSome ∨ (s.players t).isSome ∨
          (s.registered t).isSome := by
        rw [hc]; exact Or.inl rfl
      have htok : c.token = t := h.keyTok t c hc
      cases h1 : (pc c).1 with
      | true =>
          rw [clientPhase_closed pc t s c hc h1]
          refine ⟨?_, ?_, h.playersListener, ?_, ?_, ?_, ?_, h.posTok⟩
          · intro x hx
            dsimp only
            rcases eq_or_ne x t with rfl | hxt
            · simp [hpn]
            · rw [mset_other _ _ _ _ hxt, mset_other _ _ _ _ hxt]
              exact h.regIff x hx
          · dsimp only
            rw [mset_other _ _ _ _ (Ne.symm ht0)]
            exact h.clientsListener
          · intro x
            dsimp only
            rcases eq_or_ne x t with rfl | hxt
            · exact Or.inl (mset_same _ _ _)
            · rw [mset_other _ _ _ _ hxt]
              exact h.singleStage x
          · intro x hx
            dsimp only at hx ⊢
            rcases eq_or_ne x t with rfl | hxt
            · exact h.tokBound x hmem
            · rw [mset_other _ _ _ _ hxt, mset_other _ _ _ _ hxt] at hx
              exact h.tokBound x hx
          · intro x cx hcx
            dsimp only at hcx
            rcases eq_or_ne x t with rfl | hxt
            · rw [mset_same] at hcx
              exact Option.noConfusion hcx
            · rw [mset_other _ _ _ _ hxt] at hcx
              exact h.keyTok x cx hcx
          · dsimp only
            rw [mset_other _ _ _ _ (Ne.symm ht0)]
            exact h.listenerReg
      | false =>
          cases h2 : (pc c).2 with
          | false =>
              rw [clientPhase_stay pc t s c hc h1 h2]
              refine ⟨?_, ?_, h.playersListener, ?_, ?_, ?_, h.listenerReg,
                h.posTok⟩
              · intro x hx
                dsimp only
                rcases eq_or_ne x t with rfl | hxt
                · have hr := h.regIff x hx
                  rw [hc] at hr
                  simpa using hr
                · rw [mset_other _ _ _ _ hxt]
                  exact h.regIff x hx
              · dsimp only
                rw [mset_other _ _ _ _ (Ne.symm ht0)]
                exact h.clientsListener
              · intro x
                dsimp only
                rcases eq_or_ne x t with rfl | hxt
                · exact Or.inr hpn
                · rw [mset_other _ _ _ _ hxt]
                  exact h.singleStage x
              · intro x hx
                dsimp only at hx ⊢
                rcases eq_or_ne x t with rfl | hxt
                · exact h.tokBound x hmem
                · rw [mset_other _ _ _ _ hxt] at hx
                  exact h.tokBound x hx
              · intro x cx hcx
                dsimp only at hcx
                rcases eq_or_ne x t with rfl | hxt
                · rw [mset_same] at hcx
                  cases Option.some.inj hcx
                  exact htok
                · rw [mset_other _ _ _ _ hxt] at hcx
                  exact h.keyTok x cx hcx
          | true =>
              rw [clientPhase_promote pc t s c hc h1 h2]
              rw [htok]
              have hreg : (s.registered t).isSome :=
                (h.regIff t ht0).mpr (Or.inl (by rw [hc]; rfl))
              refine ⟨?_, ?_, ?_, ?_, ?_, ?_, h.listenerReg, h.posTok⟩
              · intro x hx
                dsimp only
                rcases eq_or_ne x t with rfl | hxt
                · simp [hreg]
                · rw [mset_other _ _ _ _ hxt, mset_other _ _ _ _ hxt]
                  exact h.regIff x hx
              · dsimp only
                rw [mset_other _ _ _ _ (Ne.symm ht0)]
                exact h.clientsListener
              · dsimp only
                rw [mset_other _ _ _ _ (Ne.symm ht0)]
                exact h.playersListener
              · intro x
                dsimp only
                rcases eq_or_ne x t with rfl | hxt
                · exact Or.inl (mset_same _ _ _)
                · rw [mset_other _ _ _ _ hxt, mset_other _ _ _ _ hxt]
                  exact h.singleStage x
              · intro x hx
                dsimp only at hx ⊢
                rcases eq_or_ne x t with rfl | hxt
                · exact h.tokBound x hmem
                · rw [mset_other _ _ _ _ hxt, mset_other _ _ _ _ hxt] at hx
                  exact h.tokBound x hx
              · intro x cx hcx
                dsimp only at hcx
                rcases eq_or_ne x t with rfl | hxt
                · rw [mset_same] at hcx
                  exact Option.noConfusion hcx
                · rw [mset_other _ _ _ _ hxt] at hcx
                  exact h.keyTok x cx hcx

theorem dispatchConn_inv (pp : Player → Bool) (pc : Client → Bool × Bool)
    (t : Nat) {s : SysState} (h : Inv s) : Inv (dispatchConn pp pc t s).1 :=
  clientPhase_inv pc t (playerPhase_inv pp t h)

theorem acceptOne_inv {s : SysState} (h : Inv s) : Inv (acceptOne s) := by
  have hu0 : s.uniqueToken ≠ SERVER := by
    intro he
    have hpos := h.posTok
    rw [he] at hpos
    simp [SERVER] at hpos
  have hpn : s.players s.uniqueToken = none := by
    cases hq : s.players s.uniqueToken with
    | none => rfl
    | some p =>
        exact absurd (h.tokBound _ (Or.inr (Or.inl (by rw [hq]; rfl))))
          (lt_irrefl _)
  dsimp only [acceptOne, next]
  refine ⟨?_, ?_, h.playersListener, ?_, ?_, ?_, ?_, ?_⟩
  · intro x hx
    dsimp only
    rcases eq_or_ne x s.uniqueToken with rfl | hxt
    · simp
    · rw [mset_other _ _ _ _ hxt, mset_other _ _ _ _ hxt]
      exact h.regIff x hx
  · dsimp only
    rw [mset_other _ _ _ _ (Ne.symm hu0)]
    exact h.clientsListener
  · intro x
    dsimp only
    rcases eq_or_ne x s.uniqueToken with rfl | hxt
    · exact Or.inr hpn
    · rw [mset_other _ _ _ _ hxt]
      exact h.singleStage x
  · intro x hx
    dsimp only at hx ⊢
    rcases eq_or_ne x s.uniqueToken with rfl | hxt
    · omega
    · rw [mset_other _ _ _ _ hxt, mset_other _ _ _ _ hxt] at hx
      have := h.tokBound x hx
      omega
  · intro x cx hcx
    dsimp only at hcx
    rcases eq_or_ne x s.uniqueToken with rfl | hxt
    · rw [mset_same] at hcx
      cases Option.some.inj hcx
      rfl
    · rw [mset_other _ _ _ _ hxt] at hcx
      exact h.keyTok x cx hcx
  · dsimp only
    rw [mset_other _ _ _ _ (Ne.symm hu0)]
    exact h.listenerReg
  · dsimp only
    omega

theorem acceptDrain_inv (n : Nat) (ek : AcceptEnd) :
    ∀ (s : SysState) (p : SysState × List Op), Inv s →
      acceptDrain n ek s = Except.ok p → Inv p.1 := by
  induction n with
  | zero =>
      intro s p h heq
      cases ek with
      | wouldBlock =>
          have : (s, ([] : List Op)) = p := Except.ok.inj heq
          rw [← this]
          exact h
      | fatal e => exact Except.noConfusion heq
  | succ k ih =>
      intro s p h heq
      have heq' : (acceptDrain k ek (acceptOne s)).map
          (fun q =>
            (q.1, Op.register (next s.uniqueToken).1 readWrite ::
              Op.insertClient (next s.uniqueToken).1 :: q.2)) =
          Except.ok p := heq
      cases hrec : acceptDrain k ek (acceptOne s) with
      | error e => rw [hrec] at heq'; exact Except.noConfusion heq'
      | ok q =>
          rw [hrec] at heq'
          have hq : (q.1, Op.register (next s.uniqueToken).1 readWrite ::
              Op.insertClient (next s.uniqueToken).1 :: q.2) = p :=
            Except.ok.inj heq'
          have hinv := ih (acceptOne s) q (acceptOne_inv h) hrec
          rw [← hq]
          exact hinv

theorem dispatchEvent_inv (pp : Player → Bool) (pc : Client → Bool × Bool)
    (e : Ev) {s : SysState} {p : SysState × List Op} (h : Inv s)
    (heq : dispatchEvent pp pc e s = Except.ok p) : Inv p.1 := by
  cases e with
  | listener n ek => exact acceptDrain_inv n ek s p h heq
  | conn t =>
      have : dispatchConn pp pc t s = p := Except.ok.inj heq
      rw [← this]
      exact dispatchConn_inv pp pc t h

/-! ### Helper lemmas about minting and the accept-drain -/

theorem mintFrom_succ (c k : Nat) :
    mintFrom c (Nat.succ k) = c :: mintFrom (c + 1) k := rfl

theorem mintFrom_length (c k : Nat) : (mintFrom c k).length = k := by
  induction k generalizing c with
  | zero => rfl
  | succ k ih => simp [mintFrom_succ, ih]

theorem le_of_mem_mintFrom {c k t : Nat} (ht : t ∈ mintFrom c k) : c ≤ t := by
  induction k generalizing c with
  | zero => cases ht
  | succ k ih =>
      rw [mintFrom_succ] at ht
      rcases List.mem_cons.mp ht with rfl | hmem
      · exact Nat.le_refl t
      · exact Nat.le_of_succ_le (ih hmem)

theorem mintFrom_pairwise (c k : Nat) :
    (mintFrom c k).Pairwise (fun a b => a < b) := by
  induction k generalizing c with
  | zero => exact List.Pairwise.nil
  | succ k ih =>
      rw [mintFrom_succ]
      refine List.Pairwise.cons ?_ (ih (c + 1))
      intro b hb
      exact Nat.lt_of_lt_of_le (Nat.lt_succ_self c) (le_of_mem_mintFrom hb)

theorem mintFrom_nodup (c k : Nat) : (mintFrom c k).Nodup :=
  (mintFrom_pairwise c k).imp (fun h => Nat.ne_of_lt h)

theorem acceptOne_clients (s : SysState) :
    (acceptOne s).clients =
      mset s.clients s.uniqueToken (some (newClient s.uniqueToken)) := rfl

theorem acceptOne_registered (s : SysState) :
    (acceptOne s).registered =
      mset s.registered s.uniqueToken (some readWrite) := rfl

theorem acceptOne_uniqueToken (s : SysState) :
    (acceptOne s).uniqueToken = s.uniqueToken + 1 := rfl

/-- The Player branch emits either no operations or exactly the
player-teardown triple. -/
theorem playerPhase_log_cases (pp : Player → Bool) (t : Nat) (s : SysState) :
    (playerPhase pp t s).2 = [] ∨
    (playerPhase pp t s).2 =
      [Op.removePlayer t, Op.serverRemovePlayer t, Op.deregister t] := by
  cases hp : s.players t with
  | none => rw [playerPhase_none pp t s hp]; exact Or.inl rfl
  | some p =>
      cases hl : pp p with
      | false => rw [playerPhase_stay pp t s p hp hl]; exact Or.inl rfl
      | true => rw [playerPhase_closed pp t s p hp hl]; exact Or.inr rfl

theorem acceptDrain_fatal (n : Nat) (e : IOErr) :
    ∀ s : SysState, acceptDrain n (AcceptEnd.fatal e) s = Except.error e := by
  induction n with
  | zero => intro s; rfl
  | succ k ih =>
      intro s
      simp only [acceptDrain]
      rw [ih]
      rfl

theorem acceptDrain_ok (n : Nat) :
    ∀ s : SysState, ∃ p,
      acceptDrain n AcceptEnd.wouldBlock s = Except.ok p ∧
      (∀ t, t ∈ mintFrom s.uniqueToken n →
        p.1.clients t = some (newClient t) ∧
        p.1.registered t = some readWrite) ∧
      (∀ t, t ∉ mintFrom s.uniqueToken n →
        p.1.clients t = s.clients t ∧ p.1.registered t = s.registered t) := by
  induction n with
  | zero =>
      intro s
      exact ⟨(s, []), rfl, fun t ht => absurd ht (List.not_mem_nil t),
        fun t _ => ⟨rfl, rfl⟩⟩
  | succ k ih =>
      intro s
      obtain ⟨p, hok, hmem, hfr⟩ := ih (acceptOne s)
      have hmem' : ∀ t, t ∈ mintFrom (s.uniqueToken + 1) k →
          p.1.clients t = some (newClient t) ∧
          p.1.registered t = some readWrite := by
        rw [← acceptOne_uniqueToken s]
        exact hmem
      have hfr' : ∀ t, t ∉ mintFrom (s.uniqueToken + 1) k →
          p.1.clients t = (acceptOne s).clients t ∧
          p.1.registered t = (acceptOne s).registered t := by
        rw [← acceptOne_uniqueToken s]
        exact hfr
      refine ⟨(p.1, Op.register s.uniqueToken readWrite ::
        Op.insertClient s.uniqueToken :: p.2), ?_, ?_, ?_⟩
      · simp only [acceptDrain]
        rw [hok]
        rfl
      · intro t ht
        rw [mintFrom_succ] at ht
        rcases List.mem_cons.mp ht with rfl | hmem2
        · have hnot : s.uniqueToken ∉ mintFrom (s.uniqueToken + 1) k := by
            intro hmem3
            have := le_of_mem_mintFrom hmem3
            omega
          have h2 := hfr' s.uniqueToken hnot
          rw [acceptOne_clients, acceptOne_registered] at h2
          rw [h2.1, h2.2, mset_same, mset_same]
          exact ⟨rfl, rfl⟩
        · exact hmem' t hmem2
      · intro t ht
        rw [mintFrom_succ] at ht
        have hne : t ≠ s.uniqueToken := fun he => ht (he ▸ List.mem_cons_self _ _)
        have hnot : t ∉ mintFrom (s.uniqueToken + 1) k :=
          fun hmem3 => ht (List.mem_cons_of_mem _ hmem3)
        have h2 := hfr' t hnot
        rw [acceptOne_clients, acceptOne_registered,
          mset_other _ _ _ _ hne, mset_other _ _ _ _ hne] at h2
        exact h2

/-- The state right after the first connection has been accepted: one Client
at token 1, registered read+write. -/
def oneClientState : SysState := acceptOne initState

/-- Recognises reactor-registry operations (register or deregister). -/
def isRegistryOp : Op → Bool
  | Op.register _ _ => true
  | Op.deregister _ => true
  | _ => false

/-! ### Claims -/

/-- C1: for every Token whose Client is observed, after dispatch processing,
with `make_player = true` and `closed = false`, that same dispatch iteration
removes the Client entry, inserts exactly one Player entry under the same
Token, and runs the post-promotion hook `spawn_player` exactly once;
afterwards the Token has zero Client entries and one Player entry. -/
theorem promotion_atomic (pp : Player → Bool) (pc : Client → Bool × Bool)
    (t : Nat) (s : SysState) (c : Client)
    (hc : s.clients t = some c) (htok : c.token = t)
    (hcl : (pc c).1 = false) (hmk : (pc c).2 = true) :
    (dispatchConn pp pc t s).1.clients t = none ∧
    ((dispatchConn pp pc t s).1.players t).isSome = true ∧
    (dispatchConn pp pc t s).2.count (Op.spawnPlayer t) = 1 ∧
    (dispatchConn pp pc t s).2.count (Op.insertPlayer t) = 1 := by
  have hc1 : (playerPhase pp t s).1.clients t = some c := by
    rw [playerPhase_clients]
    exact hc
  rw [dispatchConn_eq,
    clientPhase_promote pc t (playerPhase pp t s).1 c hc1 hcl hmk, htok]
  dsimp only
  refine ⟨mset_same _ _ _, ?_, ?_, ?_⟩
  · rw [mset_same]
    rfl
  · rcases playerPhase_log_cases pp t s with hlog | hlog <;> rw [hlog] <;>
      simp [List.count_append, List.count_cons, List.count_nil]
  · rcases playerPhase_log_cases pp t s with hlog | hlog <;> rw [hlog] <;>
      simp [List.count_append, List.count_cons, List.count_nil]

/-- C1 witness: a promotion observed at token 1 in the one-client state. -/
theorem promotion_atomic_witness :
    (dispatchConn (fun _ => false) (fun _ => (false, true)) 1
      oneClientState).1.clients 1 = none ∧
    ((dispatchConn (fun _ => false) (fun _ => (false, true)) 1
      oneClientState).1.players 1).isSome = true ∧
    (dispatchConn (fun _ => false) (fun _ => (false, true)) 1
      oneClientState).2.count (Op.spawnPlayer 1) = 1 ∧
    (dispatchConn (fun _ => false) (fun _ => (false, true)) 1
      oneClientState).2.count (Op.insertPlayer 1) = 1 :=
  promotion_atomic (fun _ => false) (fun _ => (false, true)) 1 oneClientState
    (newClient 1) (by rfl) rfl rfl rfl

/-- The registered-iff-live property exactly as the claim states it, over all
Tokens (including the listener token). -/
def regIffLiveAll (s : SysState) : Prop :=
  ∀ t, ((s.registered t).isSome ↔ ((s.clients t).isSome ∨ (s.players t).isSome))

/-- C2 counterexample: in the state between dispatch iterations right after
setup, the listener Token (`SERVER = 0`) is registered with the Reactor but
has neither a Client nor a Player entry, so the claimed iff fails for it. -/
theorem reg_iff_live_counterexample : ¬ regIffLiveAll initState := by
  intro h
  have h0 := (h SERVER).mp (by rw [Inv_initState.listenerReg]; rfl)
  rcases h0 with h0 | h0 <;> simp [initState] at h0

/-- C2 (amended): for every NON-listener Token, at every point between
dispatch iterations, the Token is registered with the Reactor iff it has a
live Client or Player entry: the invariant holds in the initial state, is
preserved by every dispatch iteration, and implies the iff for every
non-listener Token.  (The listener Token 0 is registered throughout with no
map entry, which is the only deviation from the claim as stated.) -/
theorem reg_iff_live_inv :
    Inv initState ∧
    (∀ pp pc e s p, Inv s → dispatchEvent pp pc e s = Except.ok p →
      Inv p.1) ∧
    (∀ s, Inv s → ∀ t, t ≠ SERVER →
      ((s.registered t).isSome ↔
        ((s.clients t).isSome ∨ (s.players t).isSome))) :=
  ⟨Inv_initState,
   fun pp pc e _ _ h heq => dispatchEvent_inv pp pc e h heq,
   fun _ h t ht => h.regIff t ht⟩

/-- C2 witness: the iff instantiated at token 3 after one dispatch iteration
from the initial state. -/
theorem reg_iff_live_inv_witness :
    ((dispatchConn (fun _ => false) (fun _ => (false, false)) 3
        initState).1.registered 3).isSome ↔
      (((dispatchConn (fun _ => false) (fun _ => (false, false)) 3
          initState).1.clients 3).isSome ∨
       ((dispatchConn (fun _ => false) (fun _ => (false, false)) 3
          initState).1.players 3).isSome) :=
  reg_iff_live_inv.2.2 _
    (reg_iff_live_inv.2.1 (fun _ => false) (fun _ => (false, false))
      (Ev.conn 3) initState _ reg_iff_live_inv.1 rfl)
    3 (by decide)

/-- C3 counterexample: tearing down the closed Client at token 1, the
operation log is `[removeClient 1, deregister 1]`: the registry-map removal
is logged strictly BEFORE the Reactor deregistration, so deregistration does
not happen "no later than" removal. -/
theorem teardown_order_counterexample :
    (dispatchConn (fun _ => false) (fun _ => (true, false)) 1
      oneClientState).2 = [Op.removeClient 1, Op.deregister 1] ∧
    ¬ ((dispatchConn (fun _ => false) (fun _ => (true, false)) 1
        oneClientState).2.indexOf (Op.deregister 1) ≤
       (dispatchConn (fun _ => false) (fun _ => (true, false)) 1
        oneClientState).2.indexOf (Op.removeClient 1)) := by
  decide

/-- C3 (amended): teardown deregisters from the Reactor within the same
dispatch iteration as the registry-map removal, immediately AFTER it (with
the Server notification in between in the Player case) — not before it. -/
theorem teardown_deregister_follows_removal (pp : Player → Bool)
    (pc : Client → Bool × Bool) (t : Nat) (s : SysState) :
    (∀ c, s.clients t = some c → (pc c).1 = true →
      ∃ pre, (dispatchConn pp pc t s).2 =
        pre ++ [Op.removeClient t, Op.deregister t]) ∧
    (∀ p, s.players t = some p → pp p = true →
      ∃ post, (dispatchConn pp pc t s).2 =
        Op.removePlayer t :: Op.serverRemovePlayer t ::
          Op.deregister t :: post) := by
  constructor
  · intro c hc h1
    have hc1 : (playerPhase pp t s).1.clients t = some c := by
      rw [playerPhase_clients]
      exact hc
    refine ⟨(playerPhase pp t s).2, ?_⟩
    rw [dispatchConn_eq, clientPhase_closed pc t (playerPhase pp t s).1 c hc1 h1]
  · intro p hp h1
    refine ⟨(clientPhase pc t (playerPhase pp t s).1).2, ?_⟩
    rw [dispatchConn_eq, playerPhase_closed pp t s p hp h1]
    simp

/-- C3 amended-claim witness: the closed-client teardown at token 1. -/
theorem teardown_deregister_follows_removal_witness :
    ∃ pre, (dispatchConn (fun _ => false) (fun _ => (true, false)) 1
      oneClientState).2 = pre ++ [Op.removeClient 1, Op.deregister 1] :=
  (teardown_deregister_follows_removal (fun _ => false)
    (fun _ => (true, false)) 1 oneClientState).1 (newClient 1) (by rfl) rfl

/-- C4: over the whole process lifetime, the tokens minted by the allocator
(successive `next` calls starting from `Token(SERVER.0 + 1)`) are strictly
increasing, never repeat, start exactly one above the reserved listener
token, and never include the listener token itself. -/
theorem token_allocation (k : Nat) :
    (mintFrom (SERVER + 1) k).Pairwise (fun a b => a < b) ∧
    (mintFrom (SERVER + 1) k).Nodup ∧
    (mintFrom (SERVER + 1) k).head? =
      (if k = 0 then none else some (SERVER + 1)) ∧
    SERVER ∉ mintFrom (SERVER + 1) k := by
  refine ⟨mintFrom_pairwise _ _, mintFrom_nodup _ _, ?_, ?_⟩
  · cases k with
    | zero => rfl
    | succ k => rw [mintFrom_succ]; simp
  · intro hmem
    have := le_of_mem_mintFrom hmem
    omega

/-- C4 witness: the first three minted tokens are `[1, 2, 3]`: strictly
increasing, duplicate-free, starting at `SERVER + 1`, avoiding `SERVER`. -/
theorem token_allocation_witness :
    (mintFrom (SERVER + 1) 3).Pairwise (fun a b => a < b) ∧
    (mintFrom (SERVER + 1) 3).Nodup ∧
    (mintFrom (SERVER + 1) 3).head? =
      (if 3 = 0 then none else some (SERVER + 1)) ∧
    SERVER ∉ mintFrom (SERVER + 1) 3 :=
  token_allocation 3

/-- C5: a listener-readiness event with `n` pending connections creates
exactly `n` new Client entries — the freshly minted tokens, each previously
absent, each now holding a new Client and registered read+write, everything
else untouched — and halts on `WouldBlock`; any other accept error aborts
the whole loop with that error. -/
theorem accept_drain_exact (n : Nat) (s : SysState) (e : IOErr)
    (hfresh : ∀ t, s.uniqueToken ≤ t → s.clients t = none) :
    (∃ p, acceptDrain n AcceptEnd.wouldBlock s = Except.ok p ∧
      (mintFrom s.uniqueToken n).length = n ∧
      (∀ t, t ∈ mintFrom s.uniqueToken n →
        s.clients t = none ∧ p.1.clients t = some (newClient t) ∧
        p.1.registered t = some readWrite) ∧
      (∀ t, t ∉ mintFrom s.uniqueToken n →
        p.1.clients t = s.clients t ∧ p.1.registered t = s.registered t)) ∧
    acceptDrain n (AcceptEnd.fatal e) s = Except.error e := by
  obtain ⟨p, hok, hmem, hfr⟩ := acceptDrain_ok n s
  exact ⟨⟨p, hok, mintFrom_length _ _,
    fun t ht => ⟨hfresh t (le_of_mem_mintFrom ht), (hmem t ht).1,
      (hmem t ht).2⟩, hfr⟩,
    acceptDrain_fatal n e s⟩

/-- C5 witness: draining two pending connections from the initial state. -/
theorem accept_drain_exact_witness :
    (∃ p, acceptDrain 2 AcceptEnd.wouldBlock initState = Except.ok p ∧
      (mintFrom initState.uniqueToken 2).length = 2 ∧
      (∀ t, t ∈ mintFrom initState.uniqueToken 2 →
        initState.clients t = none ∧ p.1.clients t = some (newClient t) ∧
        p.1.registered t = some readWrite) ∧
      (∀ t, t ∉ mintFrom initState.uniqueToken 2 →
        p.1.clients t = initState.clients t ∧
        p.1.registered t = initState.registered t)) ∧
    acceptDrain 2 (AcceptEnd.fatal ⟨IOKind.other⟩) initState =
      Except.error ⟨IOKind.other⟩ :=
  accept_drain_exact 2 initState ⟨IOKind.other⟩ (fun _ _ => rfl)

/-- C6: for every line the console channel reads, a non-empty line leads to
exactly one `handle_command` invocation with sender Console and the literal
line text (trailing newline included), and an empty line to none.  (The
string `read_line` yields includes the trailing newline, so "empty" here
means zero bytes were read.) -/
theorem console_line_dispatch (out : String) :
    (out ≠ "" → consoleDispatch out = [(CommandSender.console, out)]) ∧
    (out = "" → consoleDispatch out = []) := by
  constructor
  · intro h
    rw [consoleDispatch, if_neg]
    simp [String.isEmpty_iff, h]
  · intro h
    rw [h]
    rfl

/-- C6 witness: the `"stop\n"` line is forwarded literally once; the empty
read produces no invocation. -/
theorem console_line_dispatch_witness :
    consoleDispatch "stop\n" = [(CommandSender.console, "stop\n")] ∧
    consoleDispatch "" = [] :=
  ⟨(console_line_dispatch "stop\n").1 (by decide),
   (console_line_dispatch "").2 rfl⟩

/-- C7: an OS-interrupted `poll` error is retried transparently (the loop
just continues); any other `poll` error terminates the loop by being
propagated; consequently an interrupted error is never the loop's result. -/
theorem poll_interrupted_retried :
    (∀ e rest, interrupted e = true →
      pollRetry (Except.error e :: rest) = pollRetry rest) ∧
    (∀ e rest, interrupted e = false →
      pollRetry (Except.error e :: rest) = some (Except.error e)) ∧
    (∀ rs e, pollRetry rs = some (Except.error e) → interrupted e = false) := by
  refine ⟨?_, ?_, ?_⟩
  · intro e rest h
    simp [pollRetry, h]
  · intro e rest h
    simp [pollRetry, h]
  · intro rs
    induction rs with
    | nil => intro e h; exact Option.noConfusion h
    | cons r rest ih =>
        intro e h
        cases r with
        | error e' =>
            by_cases hi : interrupted e'
            · rw [pollRetry, if_pos hi] at h
              exact ih e h
            · rw [pollRetry, if_neg hi] at h
              have := Option.some.inj h
              have he : e' = e := by
                injection this
              rw [← he]
              exact Bool.not_eq_true _ ▸ (by simpa using hi)
        | ok evs =>
            rw [pollRetry] at h
            have := Option.some.inj h
            exact Except.noConfusion this

/-- C7 witness: one interrupted poll result is skipped, then the next,
non-interrupted error is surfaced. -/
theorem poll_interrupted_retried_witness :
    pollRetry [Except.error ⟨IOKind.interruptedKind⟩,
      Except.error ⟨IOKind.other⟩] =
      some (Except.error (⟨IOKind.other⟩ : IOErr)) := by
  rw [poll_interrupted_retried.1 ⟨IOKind.interruptedKind⟩ _ (by decide)]
  exact poll_interrupted_retried.2.1 ⟨IOKind.other⟩ [] (by decide)

/-- C8: when a dispatch iteration observes a Client with both `closed` and
`make_player` set, the closed branch wins: the Client entry is removed and
the connection deregistered, while no Player is inserted, the promotion
operation is not invoked, and the post-promotion hook never runs. -/
theorem closed_beats_promotion (pp : Player → Bool)
    (pc : Client → Bool × Bool) (t : Nat) (s : SysState) (c : Client)
    (hc : s.clients t = some c) (hcl : (pc c).1 = true)
    (hmk : (pc c).2 = true) :
    (dispatchConn pp pc t s).1.clients t = none ∧
    (dispatchConn pp pc t s).1.registered t = none ∧
    (dispatchConn pp pc t s).2.count (Op.insertPlayer t) = 0 ∧
    (dispatchConn pp pc t s).2.count (Op.serverAddPlayer t) = 0 ∧
    (dispatchConn pp pc t s).2.count (Op.spawnPlayer t) = 0 := by
  have hc1 : (playerPhase pp t s).1.clients t = some c := by
    rw [playerPhase_clients]
    exact hc
  rw [dispatchConn_eq, clientPhase_closed pc t (playerPhase pp t s).1 c hc1 hcl]
  dsimp only
  refine ⟨mset_same _ _ _, mset_same _ _ _, ?_, ?_, ?_⟩ <;>
    rcases playerPhase_log_cases pp t s with hlog | hlog <;> rw [hlog] <;>
      simp [List.count_append, List.count_cons, List.count_nil]

/-- C8 witness: token 1's client observed closed and promotable at once. -/
theorem closed_beats_promotion_witness :
    (dispatchConn (fun _ => false) (fun _ => (true, true)) 1
      oneClientState).1.clients 1 = none ∧
    (dispatchConn (fun _ => false) (fun _ => (true, true)) 1
      oneClientState).1.registered 1 = none ∧
    (dispatchConn (fun _ => false) (fun _ => (true, true)) 1
      oneClientState).2.count (Op.insertPlayer 1) = 0 ∧
    (dispatchConn (fun _ => false) (fun _ => (true, true)) 1
      oneClientState).2.count (Op.serverAddPlayer 1) = 0 ∧
    (dispatchConn (fun _ => false) (fun _ => (true, true)) 1
      oneClientState).2.count (Op.spawnPlayer 1) = 0 :=
  closed_beats_promotion (fun _ => false) (fun _ => (true, true)) 1
    oneClientState (newClient 1) (by rfl) rfl rfl

/-- C9: a readiness event for a non-listener Token backed by neither map is a
silent no-op: the dispatch returns no error and leaves the whole loop state
(clients, players, registrations, Server bookkeeping) unchanged, performing
no operation. -/
theorem stray_event_ignored (pp : Player → Bool) (pc : Client → Bool × Bool)
    (t : Nat) (s : SysState) (hc : s.clients t = none)
    (hp : s.players t = none) (ht : t ≠ SERVER) :
    dispatchEvent pp pc (Ev.conn t) s = Except.ok (s, []) := by
  show Except.ok (dispatchConn pp pc t s) = _
  rw [dispatchConn_eq, playerPhase_none pp t s hp]
  dsimp only
  rw [clientPhase_none pc t s hc]
  rfl

/-- C9 witness: a stray event for token 5 in the initial state. -/
theorem stray_event_ignored_witness :
    dispatchEvent (fun _ => false) (fun _ => (false, false)) (Ev.conn 5)
      initState = Except.ok (initState, []) :=
  stray_event_ignored (fun _ => false) (fun _ => (false, false)) 5 initState
    rfl rfl (by decide)

/-- C10: promotion performs no Reactor registry operation at all (the
registered map is untouched and the iteration's log holds no
register/deregister op); the single registration is made at accept time with
combined read+write interest; and a deregistration only ever happens in a
closure branch (Client closed or Player closed). -/
theorem promotion_no_registry_traffic :
    (∀ pp pc t s c, s.players t = none → s.clients t = some c →
      (pc c).1 = false → (pc c).2 = true →
      (dispatchConn pp pc t s).1.registered = s.registered ∧
      (dispatchConn pp pc t s).2.countP (fun o => isRegistryOp o) = 0) ∧
    (∀ n ek s p, acceptDrain n ek s = Except.ok p →
      ∀ u i, Op.register u i ∈ p.2 → i = readWrite) ∧
    (∀ pp pc t s, Op.deregister t ∈ (dispatchConn pp pc t s).2 →
      (∃ p, s.players t = some p ∧ pp p = true) ∨
      (∃ c, s.clients t = some c ∧ (pc c).1 = true)) := by
  refine ⟨?_, ?_, ?_⟩
  · intro pp pc t s c hp hc hcl hmk
    rw [dispatchConn_eq, playerPhase_none pp t s hp]
    dsimp only
    rw [clientPhase_promote pc t s c hc hcl hmk]
    dsimp only
    exact ⟨rfl, by simp [List.countP_cons, isRegistryOp]⟩
  · intro n
    induction n with
    | zero =>
        intro ek s p heq u i hmem
        cases ek with
        | wouldBlock =>
            have : (s, ([] : List Op)) = p := Except.ok.inj heq
            rw [← this] at hmem
            exact absurd hmem (List.not_mem_nil _)
        | fatal e => exact Except.noConfusion heq
    | succ k ih =>
        intro ek s p heq u i hmem
        have heq' : (acceptDrain k ek (acceptOne s)).map
            (fun q =>
              (q.1, Op.register (next s.uniqueToken).1 readWrite ::
                Op.insertClient (next s.uniqueToken).1 :: q.2)) =
            Except.ok p := heq
        cases hrec : acceptDrain k ek (acceptOne s) with
        | error e => rw [hrec] at heq'; exact Except.noConfusion heq'
        | ok q =>
            rw [hrec] at heq'
            have hq := Except.ok.inj heq'
            rw [← hq] at hmem
            rcases List.mem_cons.mp hmem with hh | hmem2
            · injection hh with h1 h2
            · rcases List.mem_cons.mp hmem2 with hh | hmem3
              · exact Op.noConfusion hh
              · exact ih ek (acceptOne s) q hrec u i hmem3
  · intro pp pc t s hmem
    rw [dispatchConn_eq] at hmem
    dsimp only at hmem
    rcases List.mem_append.mp hmem with hmem | hmem
    · cases hp : s.players t with
      | none =>
          rw [playerPhase_none pp t s hp] at hmem
          exact absurd hmem (List.not_mem_nil _)
      | some p =>
          cases hl : pp p with
          | false =>
              rw [playerPhase_stay pp t s p hp hl] at hmem
              exact absurd hmem (List.not_mem_nil _)
          | true => exact Or.inl ⟨p, rfl, hl⟩
    · have hcc := playerPhase_clients pp t s
      cases hc : s.clients t with
      | none =>
          rw [clientPhase_none pc t (playerPhase pp t s).1
            (by rw [hcc]; exact hc)] at hmem
          exact absurd hmem (List.not_mem_nil _)
      | some c =>
          have hc1 : (playerPhase pp t s).1.clients t = some c := by
            rw [hcc]
            exact hc
          cases h1 : (pc c).1 with
          | true => exact Or.inr ⟨c, rfl, h1⟩
          | false =>
              cases h2 : (pc c).2 with
              | false =>
                  rw [clientPhase_stay pc t (playerPhase pp t s).1 c hc1 h1 h2]
                    at hmem
                  exact absurd hmem (List.not_mem_nil _)
              | true =>
                  rw [clientPhase_promote pc t (playerPhase pp t s).1 c hc1
                    h1 h2] at hmem
                  simp at hmem

/-- C10 witness: the promotion at token 1 leaves the registration map
untouched and logs no registry operation. -/
theorem promotion_no_registry_traffic_witness :
    (dispatchConn (fun _ => false) (fun _ => (false, true)) 1
      oneClientState).1.registered = oneClientState.registered ∧
    (dispatchConn (fun _ => false) (fun _ => (false, true)) 1
      oneClientState).2.countP (fun o => isRegistryOp o) = 0 :=
  promotion_no_registry_traffic.1 (fun _ => false) (fun _ => (false, true))
    1 oneClientState (newClient 1) (by rfl) (by rfl) rfl rfl

end Pumpkin
